import Mathlib

/-
Verification development for the Arraigo ETL core (scripts/arraigo_etl.py).

The Python source is shallowly embedded: pure helpers (norm_text,
make_company_key, detect_signals) become Lean functions; the SQL store
becomes an explicit `Store` record, each SQL statement of the script an
explicit state transformer with the statement's semantics; the two ETL
loops become folds over candidate-record lists; exceptional control flow
of the per-record try/except blocks is modelled by Option-valued fetch
oracles and a Boolean failure oracle.  Machine 32-bit arithmetic inside
MD5 is Nat with explicit reduction mod 2^32.
-/

namespace Arraigo

/-! ## Normalizer: `norm_text` (arraigo_etl.py lines 64-67)

`norm_text(s)`: `(s or "").strip().lower()` then `re.sub(r"\s+", " ", s)`.
Whitespace is modelled as the six ASCII whitespace characters Python's
`str.strip`/`\s` recognise; lower-casing is modelled for ASCII letters plus
the accented Spanish letters that actually occur in the script's data. -/

def isSp (c : Char) : Bool :=
  c == ' ' || c == '\t' || c == '\n' || c == '\r' || c == '\x0B' || c == '\x0C'

def lowerPairs : List (Char × Char) :=
  [('A', 'a'), ('B', 'b'), ('C', 'c'), ('D', 'd'), ('E', 'e'), ('F', 'f'),
   ('G', 'g'), ('H', 'h'), ('I', 'i'), ('J', 'j'), ('K', 'k'), ('L', 'l'),
   ('M', 'm'), ('N', 'n'), ('O', 'o'), ('P', 'p'), ('Q', 'q'), ('R', 'r'),
   ('S', 's'), ('T', 't'), ('U', 'u'), ('V', 'v'), ('W', 'w'), ('X', 'x'),
   ('Y', 'y'), ('Z', 'z'),
   ('Á', 'á'), ('É', 'é'), ('Í', 'í'), ('Ó', 'ó'), ('Ú', 'ú'),
   ('Ñ', 'ñ'), ('Ü', 'ü')]

def pyLower (c : Char) : Char :=
  match lowerPairs.find? (fun p => p.1 == c) with
  | some p => p.2
  | none => c

def lstripChars (l : List Char) : List Char := l.dropWhile isSp

def rstripChars (l : List Char) : List Char := (l.reverse.dropWhile isSp).reverse

/-- Effect of `re.sub(r"\s+", " ", s)`: every maximal run of whitespace
becomes one single space.  The Boolean flag records whether the previous
character was whitespace (the run already emitted its single space). -/
def collapseWs : Bool → List Char → List Char
  | _, [] => []
  | prevWs, c :: rest =>
    if isSp c then
      if prevWs then collapseWs true rest else ' ' :: collapseWs true rest
    else c :: collapseWs false rest

def normChars (l : List Char) : List Char :=
  collapseWs false ((rstripChars (lstripChars l)).map pyLower)

def norm_text (s : String) : String := String.mk (normChars s.data)

/-- `norm_text` applied to a possibly-null input: the Python body reads
`(s or "")`, so `None` behaves exactly like the empty string. -/
def norm_text_opt (s : Option String) : String := norm_text (s.getD "")

/-- Python `str.strip()` alone (used on the BORME company-name proxy). -/
def pyStrip (s : String) : String := String.mk (rstripChars (lstripChars s.data))

/-! ## Signal detector: `detect_signals` (lines 26-47, 73-78)

Each regex of KEYWORDS_POS/GOV/NEG has the shape
`\b<literal with optional [oó] class>\b` (the final `\binsolvenc` has no
trailing `\b`).  A pattern is embedded as the list of literal variants the
character class expands to, plus a flag for the trailing word boundary.
`\b` next to a word character matches iff the adjacent outside character
is absent or not a word character.  Word characters are modelled as ASCII
alphanumerics, underscore, and the accented Spanish letters. -/

def isWordChar (c : Char) : Bool :=
  c.isAlphanum || c == '_' ||
  ['á', 'é', 'í', 'ó', 'ú', 'ñ', 'ü', 'Á', 'É', 'Í', 'Ó', 'Ú', 'Ñ', 'Ü'].contains c

structure KwPattern where
  variants : List String
  endBound : Bool
  deriving Repr, DecidableEq

/-- KEYWORDS_POS (lines 26-34). -/
def KEYWORDS_POS : List KwPattern :=
  [⟨["cesion", "cesión"], true⟩,
   ⟨["cesion de empresa", "cesión de empresa"], true⟩,
   ⟨["traspaso"], true⟩,
   ⟨["transmision", "transmisión"], true⟩,
   ⟨["jubilacion", "jubilación"], true⟩,
   ⟨["relevo generacional"], true⟩,
   ⟨["unidad productiva"], true⟩]

/-- KEYWORDS_GOV (lines 36-40). -/
def KEYWORDS_GOV : List KwPattern :=
  [⟨["convocatoria de junta"], true⟩,
   ⟨["junta general"], true⟩,
   ⟨["cambio accionario"], true⟩]

/-- KEYWORDS_NEG (lines 42-47); `\binsolvenc` has no trailing boundary. -/
def KEYWORDS_NEG : List KwPattern :=
  [⟨["disolucion", "disolución"], true⟩,
   ⟨["liquidacion", "liquidación"], true⟩,
   ⟨["concurso"], true⟩,
   ⟨["insolvenc"], false⟩]

def boundaryBefore (t : List Char) (i : Nat) : Bool :=
  match i with
  | 0 => true
  | j + 1 =>
    match t[j]? with
    | some c => !isWordChar c
    | none => true

def boundaryAfter (t : List Char) (i : Nat) : Bool :=
  match t[i]? with
  | some c => !isWordChar c
  | none => true

def matchesAt (v : List Char) (endBound : Bool) (t : List Char) (i : Nat) : Bool :=
  v.isPrefixOf (t.drop i) && boundaryBefore t i &&
    (!endBound || boundaryAfter t (i + v.length))

/-- `re.search(p, t) is not None` for one embedded pattern. -/
def patMatches (p : KwPattern) (t : List Char) : Bool :=
  (List.range (t.length + 1)).any
    (fun i => p.variants.any (fun v => matchesAt v.data p.endBound t i))

structure SignalFlags where
  pos : Bool
  gov : Bool
  neg : Bool
  deriving Repr, DecidableEq

def detect_signals (text : String) : SignalFlags :=
  let t := (norm_text text).data
  { pos := KEYWORDS_POS.any (fun p => patMatches p t),
    gov := KEYWORDS_GOV.any (fun p => patMatches p t),
    neg := KEYWORDS_NEG.any (fun p => patMatches p t) }

/-! ## Entity keyer: `make_company_key` (lines 69-71)

`hashlib.md5(base.encode("utf-8")).hexdigest()` over
`f"{norm_text(name)}|{norm_text(province)}|{norm_text(ccaa)}"`.
MD5 is implemented in full below over byte lists, with 32-bit words as
Nat reduced mod 2^32. -/

def UINT32_MOD : Nat := 4294967296

def add32 (a b : Nat) : Nat := (a + b) % UINT32_MOD

/-- Bitwise complement within 32 bits (arguments are kept < 2^32). -/
def not32 (a : Nat) : Nat := 4294967295 - a

def rotl32 (x n : Nat) : Nat := ((x <<< n) % UINT32_MOD) ||| (x >>> (32 - n))

def md5F (b c d : Nat) : Nat := (b &&& c) ||| (not32 b &&& d)
def md5G (b c d : Nat) : Nat := (b &&& d) ||| (c &&& not32 d)
def md5H (b c d : Nat) : Nat := (b ^^^ c) ^^^ d
def md5I (b c d : Nat) : Nat := c ^^^ (b ||| not32 d)

/-- Round constants floor(abs(sin(i+1)) * 2^32). -/
def md5K : List Nat :=
  [3614090360, 3905402710, 606105819, 3250441966,
   4118548399, 1200080426, 2821735955, 4249261313,
   1770035416, 2336552879, 4294925233, 2304563134,
   1804603682, 4254626195, 2792965006, 1236535329,
   4129170786, 3225465664, 643717713, 3921069994,
   3593408605, 38016083, 3634488961, 3889429448,
   568446438, 3275163606, 4107603335, 1163531501,
   2850285829, 4243563512, 1735328473, 2368359562,
   4294588738, 2272392833, 1839030562, 4259657740,
   2763975236, 1272893353, 4139469664, 3200236656,
   681279174, 3936430074, 3572445317, 76029189,
   3654602809, 3873151461, 530742520, 3299628645,
   4096336452, 1126891415, 2878612391, 4237533241,
   1700485571, 2399980690, 4293915773, 2240044497,
   1873313359, 4264355552, 2734768916, 1309151649,
   4149444226, 3174756917, 718787259, 3951481745]

/-- Per-round left-rotation amounts. -/
def md5S : List Nat :=
  [7, 12, 17, 22, 7, 12, 17, 22, 7, 12, 17, 22, 7, 12, 17, 22,
   5, 9, 14, 20, 5, 9, 14, 20, 5, 9, 14, 20, 5, 9, 14, 20,
   4, 11, 16, 23, 4, 11, 16, 23, 4, 11, 16, 23, 4, 11, 16, 23,
   6, 10, 15, 21, 6, 10, 15, 21, 6, 10, 15, 21, 6, 10, 15, 21]

def md5Round (M : List Nat) (st : Nat × Nat × Nat × Nat) (i : Nat) :
    Nat × Nat × Nat × Nat :=
  let a := st.1
  let b := st.2.1
  let c := st.2.2.1
  let d := st.2.2.2
  let f :=
    if i < 16 then md5F b c d
    else if i < 32 then md5G b c d
    else if i < 48 then md5H b c d
    else md5I b c d
  let g :=
    if i < 16 then i
    else if i < 32 then (5 * i + 1) % 16
    else if i < 48 then (3 * i + 5) % 16
    else (7 * i) % 16
  let tmp := add32 (add32 (add32 a f) (md5K.getD i 0)) (M.getD g 0)
  (d, add32 b (rotl32 tmp (md5S.getD i 0)), b, c)

/-- Little-endian 32-bit word from the first four bytes of a list. -/
def leWord (l : List Nat) : Nat :=
  l.getD 0 0 + 256 * l.getD 1 0 + 65536 * l.getD 2 0 + 16777216 * l.getD 3 0

def chunkWords (chunk : List Nat) : List Nat :=
  (List.range 16).map (fun j => leWord (chunk.drop (4 * j)))

def md5Chunk (st : Nat × Nat × Nat × Nat) (chunk : List Nat) :
    Nat × Nat × Nat × Nat :=
  let M := chunkWords chunk
  let r := (List.range 64).foldl (md5Round M) st
  (add32 st.1 r.1, add32 st.2.1 r.2.1, add32 st.2.2.1 r.2.2.1,
   add32 st.2.2.2 r.2.2.2)

/-- Split into 64-byte chunks; the fuel argument (instantiated with the
list length, an upper bound on the number of chunks) keeps the recursion
structural. -/
def chunksOf64 : Nat → List Nat → List (List Nat)
  | 0, _ => []
  | fuel + 1, l => if l.isEmpty then [] else l.take 64 :: chunksOf64 fuel (l.drop 64)

/-- MD5 padding: 0x80, zeros to 56 mod 64, 8-byte little-endian bit length. -/
def md5Pad (msg : List Nat) : List Nat :=
  let bitLen := 8 * msg.length
  let padZeros := (119 - msg.length % 64) % 64
  msg ++ [128] ++ List.replicate padZeros 0 ++
    (List.range 8).map (fun j => (bitLen >>> (8 * j)) % 256)

def wordLEBytes (w : Nat) : List Nat :=
  [w % 256, (w >>> 8) % 256, (w >>> 16) % 256, (w >>> 24) % 256]

def hexDigits : List Char := "0123456789abcdef".data

def toHexByte (b : Nat) : List Char :=
  [hexDigits.getD (b / 16) '0', hexDigits.getD (b % 16) '0']

/-- `hashlib.md5(bytes).hexdigest()`. -/
def md5HexBytes (msg : List Nat) : String :=
  let padded := md5Pad msg
  let chunks := chunksOf64 padded.length padded
  let r := chunks.foldl md5Chunk (1732584193, 4023233417, 2562383102, 271733878)
  String.mk ((([r.1, r.2.1, r.2.2.1, r.2.2.2].map wordLEBytes).flatten.map toHexByte).flatten)

/-- `base.encode("utf-8")` as a byte list. -/
def strBytes (s : String) : List Nat := s.toUTF8.toList.map (fun b => b.toNat)

/-- The composite string hashed by `make_company_key` (line 70). -/
def companyBase (name province ccaa : String) : String :=
  norm_text name ++ "|" ++ norm_text province ++ "|" ++ norm_text ccaa

/-- `make_company_key` (lines 69-71). -/
def make_company_key (name province ccaa : String) : String :=
  md5HexBytes (strBytes (companyBase name province ccaa))

/-! ## Store model (the four tables of `ensure_schema`, lines 113-185)

The relational store becomes an explicit record.  Each SQL statement the
script issues becomes a state transformer with that statement's
semantics: MERGE on companies = upsert by key, INSERT on events =
append returning the IDENTITY value (IDENTITY(1,1) starts at 1), INSERT
on signals = append, and the scores MERGE of `recompute_scores`.
Dates are carried as the strings the script derives them from. -/

structure CompanyRow where
  company_key : String
  name : String
  province : String
  ccaa : String
  deriving Repr, DecidableEq

structure EventData where
  source : String
  source_ref : Option String
  event_date : String
  event_type : String
  title : String
  url : String
  raw_excerpt : String
  company_key : Option String
  deriving Repr, DecidableEq

structure EventRow extends EventData where
  event_id : Nat
  deriving Repr, DecidableEq

structure SignalRow where
  company_key : String
  signal_date : String
  signal_kind : String
  weight : Int
  source : String
  event_id : Option Nat
  notes : Option String
  deriving Repr, DecidableEq

structure ScoreRow where
  company_key : String
  score : Int
  band : String
  score_version : String
  deriving Repr, DecidableEq

structure Store where
  companies : List CompanyRow
  events : List EventRow
  signals : List SignalRow
  scores : List ScoreRow
  nextEventId : Nat
  deriving Repr, DecidableEq

def Store.empty : Store := ⟨[], [], [], [], 1⟩

/-- `upsert_company` (lines 187-196): MERGE on company_key; matched rows
have their mutable fields overwritten, otherwise a new row is inserted. -/
def upsert_company (st : Store) (ckey name province ccaa : String) : Store :=
  if st.companies.any (fun c => c.company_key == ckey) then
    { st with companies := st.companies.map (fun c =>
        if c.company_key == ckey then
          { c with name := name, province := province, ccaa := ccaa }
        else c) }
  else
    { st with companies := st.companies ++ [⟨ckey, name, province, ccaa⟩] }

/-- `insert_event` (lines 198-213): append-only insert returning the
generated identity. -/
def insert_event (st : Store) (ev : EventData) : Store × Nat :=
  let id := st.nextEventId
  ({ st with events := st.events ++ [{ toEventData := ev, event_id := id }],
             nextEventId := id + 1 }, id)

/-- `insert_signal` (lines 215-227): append-only insert. -/
def insert_signal (st : Store) (sig : SignalRow) : Store :=
  { st with signals := st.signals ++ [sig] }

/-! ## Aggregator: `recompute_scores` (lines 229-266) -/

/-- Distinct company keys of the signals table, in first-occurrence
order: the groups of `GROUP BY company_key`. -/
def dedupKeys : List String → List String → List String
  | _, [] => []
  | seen, k :: rest =>
    if seen.any (fun x => x == k) then dedupKeys seen rest
    else k :: dedupKeys (k :: seen) rest

def signalKeys (st : Store) : List String :=
  dedupKeys [] (st.signals.map (fun s => s.company_key))

/-- `SUM(weight)` for one group. -/
def rawScore (st : Store) (key : String) : Int :=
  ((st.signals.filter (fun s => s.company_key == key)).map (fun s => s.weight)).sum

/-- The CASE expression of the `norm` CTE. -/
def clampScore (raw : Int) : Int :=
  if raw < 0 then 0 else if raw > 100 then 100 else raw

/-- The CASE expression of the `banded` CTE. -/
def bandOf (score : Int) : String :=
  if score ≥ 75 then "Hot"
  else if score ≥ 60 then "Warm"
  else if score ≥ 45 then "Watchlist"
  else "Cold"

def mkScoreRow (st : Store) (version key : String) : ScoreRow :=
  ⟨key, clampScore (rawScore st key), bandOf (clampScore (rawScore st key)), version⟩

/-- MERGE on scores: every target row whose key appears in the source is
updated in place, every source row whose key is absent from the target is
inserted; target rows not matched by any source row are left unchanged. -/
def mergeScores (tgt src : List ScoreRow) : List ScoreRow :=
  tgt.map (fun r =>
    match src.find? (fun s => s.company_key == r.company_key) with
    | some s => { r with score := s.score, band := s.band,
                         score_version := s.score_version }
    | none => r)
  ++ src.filter (fun s => tgt.all (fun r => !(r.company_key == s.company_key)))

def recompute_scores (st : Store) (version : String) : Store :=
  { st with scores :=
      mergeScores st.scores ((signalKeys st).map (mkScoreRow st version)) }

/-- Default `version` argument of `recompute_scores` (line 229), used by
both ETL entry points. -/
def DEFAULT_SCORE_VERSION : String := "v0_rules_2026_02"

/-! ## ETL BORME (lines 278-366)

A candidate item of the BORME sumario exposes `titulo`, `identificador`
and `url_pdf` (each possibly absent).  `pdf_text_from_url` performs
network and PDF work and may raise; it is modelled as an oracle
`fetch : String → Option String`, `none` meaning the call raised and the
per-record `except` handler fired (lines 360-361) before any row of the
record was written. -/

structure BormeItem where
  titulo : Option String
  identificador : Option String
  url_pdf : Option String
  deriving Repr, DecidableEq

/-- `pdf_items = [it for it in items if it.get("url_pdf")]` (line 284):
Python truthiness keeps only present, non-empty URLs. -/
def bormeFilter (items : List BormeItem) : List BormeItem :=
  items.filter (fun it =>
    match it.url_pdf with
    | some u => !(u == "")
    | none => false)

/-- The body of the per-item `try` block (lines 295-358).  Returns the
new store and whether `processed` was incremented. -/
def processBormeItem (fetch : String → Option String) (run_date : String)
    (st : Store) (it : BormeItem) : Store × Bool :=
  let title := it.titulo.getD ""
  let ident := it.identificador.getD ""
  match it.url_pdf with
  | none => (st, false)
  | some u =>
    match fetch u with
    | none => (st, false)
    | some text =>
      let sigs := detect_signals text
      if !(sigs.pos || sigs.gov || sigs.neg) then (st, false)
      else
        let t220 := title.take 220
        let company_name := pyStrip (if t220 == "" then "Empresa (BORME)" else t220)
        let ckey := make_company_key company_name "" ""
        let st1 := upsert_company st ckey company_name "" ""
        let excerpt := if text == "" then "" else text.take 1200
        let ev : EventData :=
          { source := "BORME", source_ref := some ident, event_date := run_date,
            event_type := "borme_pdf", title := title.take 500, url := u,
            raw_excerpt := excerpt, company_key := some ckey }
        let r := insert_event st1 ev
        let st3 :=
          if sigs.pos then
            insert_signal r.1
              ⟨ckey, run_date, "explicit_or_text_relevo", 40, "BORME", some r.2,
               some "Keywords positivas (traspaso/cesión/jubilación/relevo)."⟩
          else r.1
        let st4 :=
          if sigs.gov then
            insert_signal st3
              ⟨ckey, run_date, "junta_o_cambio", 15, "BORME", some r.2,
               some "Keywords de junta/cambio accionario."⟩
          else st3
        let st5 :=
          if sigs.neg then
            insert_signal st4
              ⟨ckey, run_date, "negativa_distressed", -50, "BORME", some r.2,
               some "Keywords negativas (disolución/concurso/liquidación)."⟩
          else st4
        (st5, true)

/-- The `for it in pdf_items[:cap]` loop (lines 293-361): one failed or
filtered record never stops the loop, and `processed` counts only the
records whose try body ran to completion. -/
def bormeLoop (fetch : String → Option String) (run_date : String) :
    Store → List BormeItem → Store × Nat
  | st, [] => (st, 0)
  | st, it :: rest =>
    let r := processBormeItem fetch run_date st it
    let rec_ := bormeLoop fetch run_date r.1 rest
    (rec_.1, rec_.2 + (if r.2 then 1 else 0))

/-- `etl_borme` after the sumario fetch (lines 283-364): filter, cap,
loop, final `recompute_scores`. -/
def etl_borme_run (fetch : String → Option String) (run_date : String)
    (items : List BormeItem) (cap : Nat) (st : Store) : Store × Nat :=
  let r := bormeLoop fetch run_date st ((bormeFilter items).take cap)
  (recompute_scores r.1 DEFAULT_SCORE_VERSION, r.2)

/-! ## ETL Regionales (lines 372-452)

`scrape_listings_basic` is network and HTML work, modelled as an oracle
`scrape : String → Option (List Listing)` (`none` = the call raised).
The per-listing statements can themselves raise (for example a database
error); since the `try` of `etl_regional` wraps the whole per-source
listing loop (lines 413-447), such an exception aborts the remaining
listings of that source.  A listing on which that happens is modelled by
the oracle `fails : Listing → Bool`, the exception firing before the
listing writes any row. -/

structure Listing where
  title : String
  url : String
  deriving Repr, DecidableEq

structure RegSource where
  source : String
  ccaa : String
  list_url : String
  deriving Repr, DecidableEq

/-- REGIONAL_SOURCES (lines 51-55). -/
def REGIONAL_SOURCES : List RegSource :=
  [⟨"RelevoAragon", "Aragón", "https://relevoaragon.com/"⟩,
   ⟨"RELEVACyL", "Castilla y León",
    "https://empresas.jcyl.es/web/es/economia-social-autonomos/novedad-programa-relevacyl.html"⟩,
   ⟨"RelevoCantabria", "Cantabria", "https://relevocantabria.com/"⟩]

/-- The per-listing body (lines 417-444). -/
def processRegionalListing (source ccaa today : String) (st : Store)
    (li : Listing) : Store :=
  let name := if li.title == "" then "Negocio en traspaso" else li.title
  let ckey := make_company_key name "" ccaa
  let st1 := upsert_company st ckey name "" ccaa
  let ev : EventData :=
    { source := source, source_ref := none, event_date := today,
      event_type := "listing", title := name.take 500, url := li.url,
      raw_excerpt := "Listing detectado (heurístico) en " ++ source ++
        " (" ++ ccaa ++ ").",
      company_key := some ckey }
  let r := insert_event st1 ev
  insert_signal r.1
    ⟨ckey, today, "explicit_listing", 40, source, some r.2,
     some "Señal explícita: listing/bolsa (heurístico)."⟩

/-- The `for li in listings` loop: an exception on one listing
propagates to the per-source handler, so the remaining listings of the
source are not processed; `inserted` keeps the increments already made. -/
def regionalListingsLoop (fails : Listing → Bool) (source ccaa today : String) :
    Store → List Listing → Store × Nat
  | st, [] => (st, 0)
  | st, li :: rest =>
    if fails li then (st, 0)
    else
      let st1 := processRegionalListing source ccaa today st li
      let r := regionalListingsLoop fails source ccaa today st1 rest
      (r.1, r.2 + 1)

/-- The `for src in REGIONAL_SOURCES` loop (lines 408-447) with its
per-source try/except. -/
def regionalSourceLoop (scrape : String → Option (List Listing))
    (fails : Listing → Bool) (today : String) :
    Store → List RegSource → Store × Nat
  | st, [] => (st, 0)
  | st, src :: rest =>
    let r :=
      match scrape src.list_url with
      | none => (st, 0)
      | some listings =>
        regionalListingsLoop fails src.source src.ccaa today st listings
    let r2 := regionalSourceLoop scrape fails today r.1 rest
    (r2.1, r.2 + r2.2)

/-- `etl_regional` (lines 400-452): source loop over REGIONAL_SOURCES,
then `recompute_scores`. -/
def etl_regional_run (scrape : String → Option (List Listing))
    (fails : Listing → Bool) (today : String) (st : Store) : Store × Nat :=
  let r := regionalSourceLoop scrape fails today st REGIONAL_SOURCES
  (recompute_scores r.1 DEFAULT_SCORE_VERSION, r.2)

/-! ## Derived predicates used by the claims -/

/-- Canonical-form predicate for C9: no leading whitespace, no two
adjacent whitespace characters, every whitespace character is a plain
space (tracked by `wsChain` whose flag means "previous character was
whitespace or start-of-scan forbids one"), a non-whitespace last
character, and every character fixed by lower-casing. -/
def wsChain : Bool → List Char → Bool
  | _, [] => true
  | prevWs, c :: rest =>
    if isSp c then (!prevWs && (c == ' ')) && wsChain true rest
    else wsChain false rest

def lastNotSp (l : List Char) : Bool :=
  match l.getLast? with
  | some c => !isSp c
  | none => true

def isCanonicalText (s : String) : Bool :=
  wsChain true s.data && lastNotSp s.data &&
    s.data.all (fun c => pyLower c == c)

/-- Invariant of C7: every Score row belongs to a company key that owns
at least one signal. -/
def scoresCovered (st : Store) : Prop :=
  ∀ row ∈ st.scores, ∃ sig ∈ st.signals, sig.company_key = row.company_key

/-- States reachable from the empty store through the program's entry
points: a BORME run, a regional run, or a bare score recompute. -/
inductive Reach : Store → Prop
  | empty : Reach Store.empty
  | borme (fetch : String → Option String) (run_date : String)
      (items : List BormeItem) (cap : Nat) (st : Store) :
      Reach st → Reach (etl_borme_run fetch run_date items cap st).1
  | regional (scrape : String → Option (List Listing))
      (fails : Listing → Bool) (today : String) (st : Store) :
      Reach st → Reach (etl_regional_run scrape fails today st).1
  | rescore (version : String) (st : Store) :
      Reach st → Reach (recompute_scores st version)

/-- Concrete store for claim C4: three companies whose signal weights sum
to -10, 50 and 130. -/
def c4Store : Store :=
  ⟨[], [],
   [⟨"ka", "20260101", "explicit_or_text_relevo", 40, "BORME", none, none⟩,
    ⟨"ka", "20260101", "negativa_distressed", -50, "BORME", none, none⟩,
    ⟨"kb", "20260101", "explicit_or_text_relevo", 50, "BORME", none, none⟩,
    ⟨"kc", "20260101", "explicit_or_text_relevo", 80, "BORME", none, none⟩,
    ⟨"kc", "20260102", "explicit_listing", 50, "RelevoAragon", none, none⟩],
   [], 1⟩

/-! ## Helper lemmas -/

theorem upsert_company_events (st : Store) (k n p c : String) :
    (upsert_company st k n p c).events = st.events := by
  unfold upsert_company; split <;> rfl

theorem upsert_company_signals (st : Store) (k n p c : String) :
    (upsert_company st k n p c).signals = st.signals := by
  unfold upsert_company; split <;> rfl

theorem upsert_company_scores (st : Store) (k n p c : String) :
    (upsert_company st k n p c).scores = st.scores := by
  unfold upsert_company; split <;> rfl

theorem upsert_company_nextEventId (st : Store) (k n p c : String) :
    (upsert_company st k n p c).nextEventId = st.nextEventId := by
  unfold upsert_company; split <;> rfl

theorem upsert_company_key_present (st : Store) (k n p c : String) :
    ((upsert_company st k n p c).companies.any (fun r => r.company_key == k)) = true := by
  unfold upsert_company
  split
  · next h =>
    rw [List.any_eq_true] at h ⊢
    obtain ⟨r, hr, hk⟩ := h
    refine ⟨if r.company_key == k then { r with name := n, province := p, ccaa := c } else r,
      List.mem_map_of_mem _ hr, ?_⟩
    rw [hk]; simp only [if_true]; exact hk
  · simp

theorem insert_event_fst_companies (st : Store) (ev : EventData) :
    (insert_event st ev).1.companies = st.companies := rfl

theorem insert_event_fst_signals (st : Store) (ev : EventData) :
    (insert_event st ev).1.signals = st.signals := rfl

theorem insert_event_fst_scores (st : Store) (ev : EventData) :
    (insert_event st ev).1.scores = st.scores := rfl

theorem insert_event_fst_events (st : Store) (ev : EventData) :
    (insert_event st ev).1.events =
      st.events ++ [{ toEventData := ev, event_id := st.nextEventId }] := rfl

theorem insert_signal_companies (st : Store) (s : SignalRow) :
    (insert_signal st s).companies = st.companies := rfl

theorem insert_signal_events (st : Store) (s : SignalRow) :
    (insert_signal st s).events = st.events := rfl

theorem insert_signal_scores (st : Store) (s : SignalRow) :
    (insert_signal st s).scores = st.scores := rfl

theorem insert_signal_signals (st : Store) (s : SignalRow) :
    (insert_signal st s).signals = st.signals ++ [s] := rfl

theorem insert_event_fst_nextEventId (st : Store) (ev : EventData) :
    (insert_event st ev).1.nextEventId = st.nextEventId + 1 := rfl

theorem insert_event_snd (st : Store) (ev : EventData) :
    (insert_event st ev).2 = st.nextEventId := rfl

theorem insert_signal_nextEventId (st : Store) (s : SignalRow) :
    (insert_signal st s).nextEventId = st.nextEventId := rfl

/-! ## Claims C1 and C2: the noise filter on document-derived records -/

/-- C1 (counterexample): a BORME record whose fetched text yields all
three detector flags false is skipped before `insert_event` runs (the
`continue` at line 304 precedes lines 312-325), so no Event row is kept,
contrary to the claim that the Event row is still inserted. -/
theorem C1_counterexample :
    detect_signals "acta sin contenido relevante" = ⟨false, false, false⟩
    ∧ processBormeItem (fun _ => some "acta sin contenido relevante") "20260101"
        Store.empty ⟨some "Acta ordinaria", some "B-77", some "http://x/c1.pdf"⟩ =
        (Store.empty, false)
    ∧ (processBormeItem (fun _ => some "acta sin contenido relevante") "20260101"
        Store.empty ⟨some "Acta ordinaria", some "B-77", some "http://x/c1.pdf"⟩).1.events =
        [] := by
  refine ⟨by decide, by decide, by decide⟩

/-- C1 (amended): when the detector returns all three flags false for a
document-derived record, the record is skipped entirely: no Event row is
inserted, the store is left unchanged, and the record is not counted as
processed. -/
theorem C1_amended_all_false_skips_record (fetch : String → Option String)
    (rd : String) (st : Store) (it : BormeItem) (u text : String)
    (hu : it.url_pdf = some u) (hf : fetch u = some text)
    (hd : detect_signals text = ⟨false, false, false⟩) :
    processBormeItem fetch rd st it = (st, false) := by
  unfold processBormeItem
  simp only [hu, hf, hd]
  rfl

theorem C1_witness :
    ((⟨some "Acta ordinaria", some "B-77", some "http://x/c1.pdf"⟩ : BormeItem).url_pdf =
        some "http://x/c1.pdf")
    ∧ ((fun _ : String => some "acta sin contenido relevante") "http://x/c1.pdf" =
        some "acta sin contenido relevante")
    ∧ detect_signals "acta sin contenido relevante" = ⟨false, false, false⟩
    ∧ processBormeItem (fun _ => some "acta sin contenido relevante") "20260101"
        Store.empty ⟨some "Acta ordinaria", some "B-77", some "http://x/c1.pdf"⟩ =
        (Store.empty, false) :=
  ⟨rfl, rfl, by decide,
   C1_amended_all_false_skips_record _ _ _ _ _ _ rfl rfl (by decide)⟩

/-- C2: a document-derived record whose extracted text matches none of
the three keyword classes performs no Company upsert and no Event insert
(the `continue` at line 304 runs before lines 312 and 325). -/
theorem C2_no_signal_no_company_no_event (fetch : String → Option String)
    (rd : String) (st : Store) (it : BormeItem) (u text : String)
    (hu : it.url_pdf = some u) (hf : fetch u = some text)
    (hd : detect_signals text = ⟨false, false, false⟩) :
    (processBormeItem fetch rd st it).1.companies = st.companies
    ∧ (processBormeItem fetch rd st it).1.events = st.events
    ∧ (processBormeItem fetch rd st it).1 = st := by
  unfold processBormeItem
  simp only [hu, hf, hd]
  exact ⟨rfl, rfl, rfl⟩

theorem C2_witness :
    ((⟨some "Deposito de cuentas", none, some "http://x/c2.pdf"⟩ : BormeItem).url_pdf =
        some "http://x/c2.pdf")
    ∧ ((fun _ : String => some "deposito ordinario de cuentas") "http://x/c2.pdf" =
        some "deposito ordinario de cuentas")
    ∧ detect_signals "deposito ordinario de cuentas" = ⟨false, false, false⟩
    ∧ ((processBormeItem (fun _ => some "deposito ordinario de cuentas") "20260101"
          Store.empty ⟨some "Deposito de cuentas", none, some "http://x/c2.pdf"⟩).1.companies =
        (Store.empty : Store).companies
      ∧ (processBormeItem (fun _ => some "deposito ordinario de cuentas") "20260101"
          Store.empty ⟨some "Deposito de cuentas", none, some "http://x/c2.pdf"⟩).1.events =
        (Store.empty : Store).events
      ∧ (processBormeItem (fun _ => some "deposito ordinario de cuentas") "20260101"
          Store.empty ⟨some "Deposito de cuentas", none, some "http://x/c2.pdf"⟩).1 =
        Store.empty) :=
  ⟨rfl, rfl, by decide,
   C2_no_signal_no_company_no_event _ _ _ _ _ _ rfl rfl (by decide)⟩

/-! ## Claim C3: per-record failure isolation -/

/-- C3 (counterexample): in `etl_regional` the try/except wraps the whole
per-source listing loop, not one listing, so a failure on the first
listing of a source skips the remaining listings of that source.  With
the Aragon source returning two listings and processing of the first one
raising, the run ends with zero events and count 0, although the second
listing fails nothing; per-record isolation as claimed would have
processed it.  The same run with no failures processes both. -/
theorem C3_counterexample :
    ((fun l : Listing => l.title == "A") ⟨"B", "http://b"⟩ = false)
    ∧ (etl_regional_run
        (fun u => if u == "https://relevoaragon.com/" then
          some [⟨"A", "http://a"⟩, ⟨"B", "http://b"⟩] else none)
        (fun l => l.title == "A") "2026-10-12" Store.empty).2 = 0
    ∧ (etl_regional_run
        (fun u => if u == "https://relevoaragon.com/" then
          some [⟨"A", "http://a"⟩, ⟨"B", "http://b"⟩] else none)
        (fun l => l.title == "A") "2026-10-12" Store.empty).1.events = []
    ∧ (etl_regional_run
        (fun u => if u == "https://relevoaragon.com/" then
          some [⟨"A", "http://a"⟩, ⟨"B", "http://b"⟩] else none)
        (fun _ => false) "2026-10-12" Store.empty).2 = 2 := by
  refine ⟨by decide, by decide, by decide, ?_⟩
  rfl

/-- C3 (amended): failures are caught and the run is never aborted, but
the isolation granularity differs between the pipelines.  In `etl_borme`
the handler is per record: a record whose fetch raises leaves the store
untouched, is excluded from the processed count, and the rest of the run
is exactly the run without it.  In `etl_regional` the handler is per
source: a failing source fetch skips only that source, while a failure
on one listing abandons the remaining listings of that source (the
still-successful count and rows are kept, and the next source is still
processed). -/
theorem C3_amended_failure_isolation :
    (∀ (fetch : String → Option String) (rd : String) (st : Store)
        (it : BormeItem) (u : String) (rest : List BormeItem),
      it.url_pdf = some u → fetch u = none →
      bormeLoop fetch rd st (it :: rest) = bormeLoop fetch rd st rest)
    ∧ (∀ (scrape : String → Option (List Listing)) (fails : Listing → Bool)
        (today : String) (st : Store) (src : RegSource) (rest : List RegSource),
      scrape src.list_url = none →
      regionalSourceLoop scrape fails today st (src :: rest) =
        regionalSourceLoop scrape fails today st rest)
    ∧ (∀ (fails : Listing → Bool) (source ccaa today : String) (st : Store)
        (li : Listing) (rest : List Listing),
      fails li = true →
      regionalListingsLoop fails source ccaa today st (li :: rest) = (st, 0)) := by
  refine ⟨?_, ?_, ?_⟩
  · intro fetch rd st it u rest hu hf
    show (let r := processBormeItem fetch rd st it
          let rec_ := bormeLoop fetch rd r.1 rest
          (rec_.1, rec_.2 + (if r.2 then 1 else 0))) = _
    have hskip : processBormeItem fetch rd st it = (st, false) := by
      unfold processBormeItem
      simp only [hu, hf]
    rw [hskip]
    simp
  · intro scrape fails today st src rest hs
    show (let r := match scrape src.list_url with
            | none => (st, 0)
            | some listings =>
              regionalListingsLoop fails src.source src.ccaa today st listings
          let r2 := regionalSourceLoop scrape fails today r.1 rest
          (r2.1, r.2 + r2.2)) = _
    rw [hs]
    simp
  · intro fails source ccaa today st li rest hf
    show (if fails li then (st, 0) else _) = (st, 0)
    rw [hf]
    rfl

theorem C3_witness :
    ((⟨some "t", some "i", some "u1"⟩ : BormeItem).url_pdf = some "u1")
    ∧ ((fun _ : String => (none : Option String)) "u1" = none)
    ∧ bormeLoop (fun _ => none) "20260101" Store.empty
        [⟨some "t", some "i", some "u1"⟩, ⟨some "t2", some "i2", some "u2"⟩] =
      bormeLoop (fun _ => none) "20260101" Store.empty
        [⟨some "t2", some "i2", some "u2"⟩]
    ∧ ((fun _ : String => (none : Option (List Listing))) "https://relevoaragon.com/" = none)
    ∧ regionalSourceLoop (fun _ => none) (fun _ => false) "2026-10-12" Store.empty
        REGIONAL_SOURCES =
      regionalSourceLoop (fun _ => none) (fun _ => false) "2026-10-12" Store.empty
        [⟨"RELEVACyL", "Castilla y León",
          "https://empresas.jcyl.es/web/es/economia-social-autonomos/novedad-programa-relevacyl.html"⟩,
         ⟨"RelevoCantabria", "Cantabria", "https://relevocantabria.com/"⟩]
    ∧ ((fun _ : Listing => true) ⟨"A", "http://a"⟩ = true)
    ∧ regionalListingsLoop (fun _ => true) "RelevoAragon" "Aragón" "2026-10-12"
        Store.empty [⟨"A", "http://a"⟩, ⟨"B", "http://b"⟩] = (Store.empty, 0) :=
  ⟨rfl, rfl,
   C3_amended_failure_isolation.1 _ _ _ _ _ _ rfl rfl,
   rfl,
   C3_amended_failure_isolation.2.1 (fun _ => none) (fun _ => false) _ _
     ⟨"RelevoAragon", "Aragón", "https://relevoaragon.com/"⟩ _ rfl,
   rfl,
   C3_amended_failure_isolation.2.2 (fun _ => true) _ _ _ _ _ _ rfl⟩

/-! ## Claim C5: every listing-derived record yields Company, Event and
one explicit_listing Signal -/

/-- C5: processing a regional listing always upserts the Company for the
derived key, appends exactly one Event row (type "listing"), and appends
exactly one Signal row of kind "explicit_listing" with weight +40 whose
company_key is the Company's key and whose event_id is the identity of
the Event just inserted; no text detection is involved. -/
theorem C5_listing_always_company_event_signal (source ccaa today : String)
    (st : Store) (li : Listing) :
    let name := if li.title == "" then "Negocio en traspaso" else li.title
    let ckey := make_company_key name "" ccaa
    ((processRegionalListing source ccaa today st li).companies.any
        (fun c => c.company_key == ckey)) = true
    ∧ (processRegionalListing source ccaa today st li).events.drop st.events.length =
        [⟨⟨source, none, today, "listing", name.take 500, li.url,
           "Listing detectado (heurístico) en " ++ source ++ " (" ++ ccaa ++ ").",
           some ckey⟩, st.nextEventId⟩]
    ∧ (processRegionalListing source ccaa today st li).signals.drop st.signals.length =
        [⟨ckey, today, "explicit_listing", 40, source, some st.nextEventId,
          some "Señal explícita: listing/bolsa (heurístico)."⟩] := by
  refine ⟨?_, ?_, ?_⟩ <;>
    simp [processRegionalListing, insert_signal_companies, insert_signal_events,
      insert_signal_signals, insert_event_fst_companies, insert_event_fst_events,
      insert_event_fst_signals, insert_event_snd, upsert_company_events,
      upsert_company_signals, upsert_company_nextEventId, upsert_company_key_present,
      List.drop_left]

/-! ## Claim C10: every inserted Signal is consistent with its Event -/

/-- C10: for both pipelines, each Signal row inserted while processing
one record carries the company_key of the Event inserted for that
record, the Event's event_date as its signal_date, and the identity
returned by that Event's insert as its event_id. -/
theorem C10_signal_event_consistency :
    (∀ (fetch : String → Option String) (rd : String) (st : Store) (it : BormeItem),
      (((processBormeItem fetch rd st it).1.signals.drop st.signals.length).all
        (fun sig =>
          ((processBormeItem fetch rd st it).1.events.drop st.events.length).any
            (fun ev => (some sig.company_key == ev.company_key) &&
              (sig.signal_date == ev.event_date) &&
              (sig.event_id == some ev.event_id)))) = true)
    ∧ (∀ (source ccaa today : String) (st : Store) (li : Listing),
      (((processRegionalListing source ccaa today st li).signals.drop
          st.signals.length).all
        (fun sig =>
          ((processRegionalListing source ccaa today st li).events.drop
              st.events.length).any
            (fun ev => (some sig.company_key == ev.company_key) &&
              (sig.signal_date == ev.event_date) &&
              (sig.event_id == some ev.event_id)))) = true) := by
  constructor
  · intro fetch rd st it
    unfold processBormeItem
    cases hu : it.url_pdf with
    | none => simp [hu, List.drop_length]
    | some u =>
      cases hf : fetch u with
      | none => simp [hu, hf, List.drop_length]
      | some text =>
        cases hp : (detect_signals text).pos <;>
          cases hg : (detect_signals text).gov <;>
          cases hn : (detect_signals text).neg <;>
            simp [hu, hf, hp, hg, hn, insert_signal_signals, insert_signal_events,
              insert_event_fst_signals, insert_event_fst_events, insert_event_snd,
              upsert_company_signals, upsert_company_events, upsert_company_nextEventId,
              List.drop_length, List.append_assoc, List.drop_left]
  · intro source ccaa today st li
    simp [processRegionalListing, insert_signal_signals, insert_signal_events,
      insert_event_fst_signals, insert_event_fst_events, insert_event_snd,
      upsert_company_signals, upsert_company_events, upsert_company_nextEventId,
      List.drop_left]

/-! ## Claim C8: the detector is a presence/absence classifier -/

/-- C8: each flag of `detect_signals` is true iff some pattern of the
corresponding keyword class matches the normalized text (patterns carry
both accented and unaccented variants); empty text gives all-false, a
negative-only term gives {false, false, true}, a positive plus a
governance term gives {true, true, false}, and "jubilación" and
"jubilacion" both set the positive flag. -/
theorem C8_detector_characterisation :
    (∀ t : String,
      ((detect_signals t).pos = true ↔
        ∃ p ∈ KEYWORDS_POS, patMatches p (norm_text t).data = true)
      ∧ ((detect_signals t).gov = true ↔
        ∃ p ∈ KEYWORDS_GOV, patMatches p (norm_text t).data = true)
      ∧ ((detect_signals t).neg = true ↔
        ∃ p ∈ KEYWORDS_NEG, patMatches p (norm_text t).data = true))
    ∧ detect_signals "" = ⟨false, false, false⟩
    ∧ detect_signals "concurso" = ⟨false, false, true⟩
    ∧ detect_signals "traspaso y junta general" = ⟨true, true, false⟩
    ∧ (detect_signals "jubilación").pos = true
    ∧ (detect_signals "jubilacion").pos = true := by
  refine ⟨?_, by decide, by decide, by decide, by decide, by decide⟩
  intro t
  refine ⟨?_, ?_, ?_⟩ <;> simp [detect_signals, List.any_eq_true]

/-! ## Claim C4: score aggregation, clamping and banding -/

theorem mem_dedupKeys_sub {k : String} :
    ∀ (l seen : List String), k ∈ dedupKeys seen l → k ∈ l := by
  intro l
  induction l with
  | nil => intro seen h; exact absurd h (by simp [dedupKeys])
  | cons x xs ih =>
    intro seen h
    unfold dedupKeys at h
    by_cases hx : seen.any (fun y => y == x) = true
    · rw [if_pos hx] at h
      exact List.mem_cons_of_mem _ (ih seen h)
    · rw [if_neg hx] at h
      rcases List.mem_cons.mp h with h1 | h1
      · exact h1 ▸ List.mem_cons_self _ _
      · exact List.mem_cons_of_mem _ (ih _ h1)

theorem mem_dedupKeys_of_mem {k : String} :
    ∀ (l seen : List String), k ∈ l → seen.any (fun x => x == k) = false →
      k ∈ dedupKeys seen l := by
  intro l
  induction l with
  | nil => intro seen h; exact absurd h (by simp)
  | cons x xs ih =>
    intro seen h hseen
    unfold dedupKeys
    by_cases hx : seen.any (fun y => y == x) = true
    · rw [if_pos hx]
      rcases List.mem_cons.mp h with h1 | h1
      · subst h1; rw [hx] at hseen; cases hseen
      · exact ih seen h1 hseen
    · rw [if_neg hx]
      rcases List.mem_cons.mp h with h1 | h1
      · exact h1 ▸ List.mem_cons_self _ _
      · by_cases hk : k = x
        · exact hk ▸ List.mem_cons_self _ _
        · refine List.mem_cons_of_mem _ (ih _ h1 ?_)
          rw [List.any_cons, hseen, Bool.or_false, beq_eq_false_iff_ne]
          exact fun hxk => hk hxk.symm

theorem find?_beq_self_of_mem {α} [BEq α] [LawfulBEq α] {L : List α} {k : α}
    (h : k ∈ L) : L.find? (fun x => x == k) = some k := by
  induction L with
  | nil => cases h
  | cons x xs ih =>
    rw [List.find?_cons]
    by_cases hx : (x == k) = true
    · rw [hx, eq_of_beq hx]
    · rw [Bool.not_eq_true] at hx
      rw [hx]
      rcases List.mem_cons.mp h with h1 | h1
      · subst h1; simp at hx
      · exact ih h1

theorem find?_map_key_pred (l : List ScoreRow) (g : ScoreRow → ScoreRow)
    (hg : ∀ r, (g r).company_key = r.company_key) (key : String) :
    (l.map g).find? (fun r => r.company_key == key) =
      (l.find? (fun r => r.company_key == key)).map g := by
  induction l with
  | nil => rfl
  | cons r rest ih =>
    rw [List.map_cons, List.find?_cons, List.find?_cons, hg]
    by_cases hr : (r.company_key == key) = true
    · rw [hr]; rfl
    · rw [Bool.not_eq_true] at hr
      rw [hr]
      exact ih

theorem find?_filter_of_unique {α} (p q : α → Bool) (a : α) :
    ∀ l : List α, (∀ x ∈ l, p x = true → x = a) → q a = true →
      (l.find? p).isSome = true → (l.filter q).find? p = some a := by
  intro l
  induction l with
  | nil => intro _ _ h; simp [List.find?] at h
  | cons x rest ih =>
    intro huniq hqa hsome
    by_cases hpx : p x = true
    · have hxa : x = a := huniq x (List.mem_cons_self _ _) hpx
      subst hxa
      rw [List.filter_cons, hqa]
      simp only [if_true]
      rw [List.find?_cons, hpx]
    · rw [Bool.not_eq_true] at hpx
      have hrec : (rest.find? p).isSome = true := by
        rw [List.find?_cons, hpx] at hsome
        exact hsome
      have hih := ih (fun x hx hpx2 => huniq x (List.mem_cons_of_mem _ hx) hpx2) hqa hrec
      rw [List.filter_cons]
      by_cases hqx : q x = true
      · rw [hqx]
        simp only [if_true]
        rw [List.find?_cons, hpx]
        exact hih
      · rw [Bool.not_eq_true] at hqx
        rw [hqx]
        simp only [Bool.false_eq_true, if_false]
        exact hih

/-- C4: for every company owning at least one signal, `recompute_scores`
writes the Score row whose score is the signed sum of that company's
signal weights clamped to [0, 100] and whose band follows the
highest-first thresholds 75/60/45; on a store whose three companies'
weights sum to -10, 50 and 130 the rows read 0 "Cold", 50 "Watchlist"
and 100 "Hot". -/
theorem C4_recompute_scores_clamp_band :
    (∀ (st : Store) (v key : String),
      (∃ s ∈ st.signals, s.company_key = key) →
      (recompute_scores st v).scores.find? (fun r => r.company_key == key) =
        some ⟨key, clampScore (rawScore st key),
          bandOf (clampScore (rawScore st key)), v⟩)
    ∧ rawScore c4Store "ka" = -10 ∧ rawScore c4Store "kb" = 50
    ∧ rawScore c4Store "kc" = 130
    ∧ (recompute_scores c4Store "v0").scores =
        [⟨"ka", 0, "Cold", "v0"⟩, ⟨"kb", 50, "Watchlist", "v0"⟩,
         ⟨"kc", 100, "Hot", "v0"⟩] := by
  refine ⟨?_, by decide, by decide, by decide, by decide⟩
  intro st v key hsig
  obtain ⟨s0, hs0mem, hs0key⟩ := hsig
  have hkey : key ∈ signalKeys st :=
    mem_dedupKeys_of_mem _ [] (List.mem_map.mpr ⟨s0, hs0mem, hs0key⟩) rfl
  have hsrcfind : ((signalKeys st).map (mkScoreRow st v)).find?
      (fun s => s.company_key == key) = some (mkScoreRow st v key) := by
    rw [List.find?_map]
    have hcomp : ((fun s : ScoreRow => s.company_key == key) ∘ (mkScoreRow st v)) =
        (fun x => x == key) := funext fun x => rfl
    rw [hcomp, find?_beq_self_of_mem hkey]
    rfl
  show (mergeScores st.scores ((signalKeys st).map (mkScoreRow st v))).find? _ = _
  unfold mergeScores
  rw [List.find?_append]
  rw [find?_map_key_pred _ _ (fun r => by
    cases hr : ((signalKeys st).map (mkScoreRow st v)).find?
        (fun s => s.company_key == r.company_key) <;> rfl)]
  by_cases hex : ∃ r ∈ st.scores, (r.company_key == key) = true
  · have hsome : (st.scores.find? (fun r => r.company_key == key)).isSome :=
      List.find?_isSome.mpr hex
    cases hr0 : st.scores.find? (fun r => r.company_key == key) with
    | none => rw [hr0] at hsome; cases hsome
    | some r0 =>
      have hp0 : (r0.company_key == key) = true := by
        have h := List.find?_some hr0
        simpa using h
      have hr0key : r0.company_key = key := eq_of_beq hp0
      show some _ = some _
      beta_reduce
      rw [hr0key, hsrcfind]
      rfl
  · have hnone : st.scores.find? (fun r => r.company_key == key) = none :=
      List.find?_eq_none.mpr (fun r hr hpr => hex ⟨r, hr, hpr⟩)
    rw [hnone]
    show (((signalKeys st).map (mkScoreRow st v)).filter
        (fun s => st.scores.all (fun r => !(r.company_key == s.company_key)))).find?
        (fun r => r.company_key == key) = _
    refine find?_filter_of_unique _ _ (mkScoreRow st v key) _ ?_ ?_ ?_
    · intro x hx hpx
      obtain ⟨k2, _, hk2⟩ := List.mem_map.mp hx
      subst hk2
      have : k2 = key := eq_of_beq hpx
      rw [this]
    · rw [List.all_eq_true]
      intro r hr
      have : ¬(r.company_key == key) = true := fun h => hex ⟨r, hr, h⟩
      simp only [mkScoreRow]
      simp only [Bool.not_eq_true] at this
      simp [this]
    · rw [hsrcfind]; rfl

theorem C4_witness :
    (∃ s ∈ c4Store.signals, s.company_key = "ka")
    ∧ (recompute_scores c4Store "vY").scores.find? (fun r => r.company_key == "ka") =
        some ⟨"ka", clampScore (rawScore c4Store "ka"),
          bandOf (clampScore (rawScore c4Store "ka")), "vY"⟩ :=
  ⟨by decide, C4_recompute_scores_clamp_band.1 c4Store "vY" "ka" (by decide)⟩

/-! ## Claim C6: determinism and distinctness of the entity key -/

theorem splitBar :
    ∀ (a b x y : List Char), '|' ∉ a → '|' ∉ b →
      a ++ '|' :: x = b ++ '|' :: y → a = b ∧ x = y := by
  intro a
  induction a with
  | nil =>
    intro b x y _ hb h
    cases b with
    | nil =>
      simp only [List.nil_append] at h
      exact ⟨rfl, (List.cons.injEq _ _ _ _ ▸ h).2⟩
    | cons d b2 =>
      simp only [List.nil_append, List.cons_append, List.cons.injEq] at h
      exact absurd (h.1 ▸ List.mem_cons_self d b2) hb
  | cons c a2 ih =>
    intro b x y ha hb h
    cases b with
    | nil =>
      simp only [List.cons_append, List.nil_append, List.cons.injEq] at h
      exact absurd (h.1 ▸ List.mem_cons_self c a2) ha
    | cons d b2 =>
      simp only [List.cons_append, List.cons.injEq] at h
      have h2 := ih b2 x y (fun hm => ha (List.mem_cons_of_mem _ hm))
        (fun hm => hb (List.mem_cons_of_mem _ hm)) h.2
      exact ⟨by rw [h.1, h2.1], h2.2⟩

theorem companyBase_data (n p r : String) :
    (companyBase n p r).data =
      (norm_text n).data ++ '|' :: ((norm_text p).data ++ '|' :: (norm_text r).data) := by
  show (norm_text n ++ "|" ++ norm_text p ++ "|" ++ norm_text r).data = _
  have h : ∀ s t : String, (s ++ t).data = s.data ++ t.data := fun s t => rfl
  rw [h, h, h, h]
  simp

/-- C6 (counterexample): normalized fields may themselves contain the
separator "|", so two triples that differ in every normalized field can
produce the same composite string and therefore the same key: the claim
that any difference in a normalized field yields a different key is
false. -/
theorem C6_counterexample :
    make_company_key "a|b" "c" "d" = make_company_key "a" "b" "c|d"
    ∧ norm_text "a|b" ≠ norm_text "a"
    ∧ norm_text "c" ≠ norm_text "b"
    ∧ norm_text "d" ≠ norm_text "c|d" := by
  refine ⟨?_, by decide, by decide, by decide⟩
  have h : companyBase "a|b" "c" "d" = companyBase "a" "b" "c|d" := by decide
  unfold make_company_key
  rw [h]

/-- C6 (amended): the key is a pure function of the normalized triple:
triples whose fields normalize identically always give the same key.
Distinctness holds only at the level of the hash input and only for
separator-free fields: when the normalized name and province contain no
"|", equal composite strings force equal normalized triples, so two
triples differing in a normalized field give different MD5 inputs; with
a "|" inside a field (see the counterexample) the composites can
coincide outright, and equal-input collision resistance is all MD5 is
relied upon for. -/
theorem C6_amended_key_determinism :
    (∀ n p r n2 p2 r2 : String,
      norm_text n = norm_text n2 → norm_text p = norm_text p2 →
      norm_text r = norm_text r2 →
      make_company_key n p r = make_company_key n2 p2 r2)
    ∧ (∀ n p r n2 p2 r2 : String,
      '|' ∉ (norm_text n).data → '|' ∉ (norm_text p).data →
      '|' ∉ (norm_text n2).data → '|' ∉ (norm_text p2).data →
      companyBase n p r = companyBase n2 p2 r2 →
      norm_text n = norm_text n2 ∧ norm_text p = norm_text p2 ∧
        norm_text r = norm_text r2) := by
  constructor
  · intro n p r n2 p2 r2 h1 h2 h3
    unfold make_company_key companyBase
    rw [h1, h2, h3]
  · intro n p r n2 p2 r2 hn hp hn2 hp2 hbase
    have hdata := congrArg String.data hbase
    rw [companyBase_data, companyBase_data] at hdata
    obtain ⟨e1, e2⟩ := splitBar _ _ _ _ hn hn2 hdata
    obtain ⟨e3, e4⟩ := splitBar _ _ _ _ hp hp2 e2
    exact ⟨String.ext e1, String.ext e3, String.ext e4⟩

theorem C6_witness :
    (norm_text "  ACME   Gómez  SL " = norm_text "acme gómez sl")
    ∧ make_company_key "  ACME   Gómez  SL " "Burgos" "Castilla y León" =
        make_company_key "acme gómez sl" "Burgos" "Castilla y León"
    ∧ ('|' ∉ (norm_text "acme").data) ∧ ('|' ∉ (norm_text "burgos").data)
    ∧ (companyBase "acme" "burgos" "x" = companyBase "acme" "burgos" "x")
    ∧ (norm_text "acme" = norm_text "acme" ∧ norm_text "burgos" = norm_text "burgos"
        ∧ norm_text "x" = norm_text "x") :=
  ⟨by decide,
   C6_amended_key_determinism.1 _ _ _ _ _ _ (by decide) rfl rfl,
   by decide, by decide, rfl,
   C6_amended_key_determinism.2 "acme" "burgos" "x" "acme" "burgos" "x"
     (by decide) (by decide) (by decide) (by decide) rfl⟩

/-! ## Claim C9: the normalizer -/

theorem pyLower_result_not_domain :
    ∀ q ∈ lowerPairs, lowerPairs.find? (fun p => p.1 == q.2) = none := by decide

theorem pyLower_pair_sp :
    ∀ q ∈ lowerPairs, isSp q.2 = isSp q.1 := by decide

theorem pyLower_idem (c : Char) : pyLower (pyLower c) = pyLower c := by
  cases h : lowerPairs.find? (fun p => p.1 == c) with
  | none =>
    have h1 : pyLower c = c := by unfold pyLower; rw [h]
    rw [h1, h1]
  | some q =>
    have hq : pyLower c = q.2 := by unfold pyLower; rw [h]
    have hmem : q ∈ lowerPairs := List.mem_of_find?_eq_some h
    rw [hq]
    unfold pyLower
    rw [pyLower_result_not_domain q hmem]

theorem isSp_pyLower (c : Char) : isSp (pyLower c) = isSp c := by
  cases h : lowerPairs.find? (fun p => p.1 == c) with
  | none =>
    have h1 : pyLower c = c := by unfold pyLower; rw [h]
    rw [h1]
  | some q =>
    have hq : pyLower c = q.2 := by unfold pyLower; rw [h]
    have hmem : q ∈ lowerPairs := List.mem_of_find?_eq_some h
    have hqc : q.1 = c := eq_of_beq (by simpa using List.find?_some h)
    rw [hq, pyLower_pair_sp q hmem, hqc]

theorem dropWhile_head_not :
    ∀ (l : List Char) (c : Char) (rest : List Char),
      l.dropWhile isSp = c :: rest → isSp c = false := by
  intro l
  induction l with
  | nil => intro c rest h; cases h
  | cons x xs ih =>
    intro c rest h
    rw [List.dropWhile_cons] at h
    by_cases hx : isSp x = true
    · rw [if_pos hx] at h; exact ih c rest h
    · rw [Bool.not_eq_true] at hx
      rw [hx] at h
      simp only [Bool.false_eq_true, if_false, List.cons.injEq] at h
      rw [← h.1]; exact hx

theorem rstrip_append (l : List Char) :
    l = rstripChars l ++ (l.reverse.takeWhile isSp).reverse := by
  calc l = l.reverse.reverse := (List.reverse_reverse l).symm
  _ = (l.reverse.takeWhile isSp ++ l.reverse.dropWhile isSp).reverse := by
      rw [List.takeWhile_append_dropWhile]
  _ = (l.reverse.dropWhile isSp).reverse ++ (l.reverse.takeWhile isSp).reverse :=
      List.reverse_append _ _

theorem lastNotSp_rstrip (l : List Char) : lastNotSp (rstripChars l) = true := by
  unfold lastNotSp rstripChars
  rw [List.getLast?_reverse]
  cases hd : l.reverse.dropWhile isSp with
  | nil => rfl
  | cons c t =>
    simp only [List.head?_cons]
    rw [dropWhile_head_not _ _ _ hd]
    rfl

theorem wsChain_collapse :
    ∀ (l : List Char) (b : Bool), wsChain b (collapseWs b l) = true := by
  intro l
  induction l with
  | nil => intro b; rfl
  | cons c rest ih =>
    intro b
    by_cases hsp : isSp c = true
    · cases b with
      | true => simp only [collapseWs, hsp, if_true]; exact ih true
      | false =>
        simp only [collapseWs, hsp, if_true, Bool.false_eq_true, if_false]
        show wsChain false (' ' :: collapseWs true rest) = true
        simp only [wsChain, isSp, if_true]
        simpa using ih true
    · rw [Bool.not_eq_true] at hsp
      simp only [collapseWs, hsp, Bool.false_eq_true, if_false]
      show wsChain b (c :: collapseWs false rest) = true
      simp only [wsChain, hsp, Bool.false_eq_true, if_false]
      exact ih false

theorem collapse_fix :
    ∀ (l : List Char) (b : Bool), wsChain b l = true → collapseWs b l = l := by
  intro l
  induction l with
  | nil => intro b _; rfl
  | cons c rest ih =>
    intro b h
    by_cases hsp : isSp c = true
    · cases b with
      | true => simp [wsChain, hsp] at h
      | false =>
        simp only [wsChain, hsp, if_true, Bool.not_false, Bool.true_and,
          Bool.and_eq_true, beq_iff_eq] at h
        simp only [collapseWs, hsp, if_true, Bool.false_eq_true, if_false]
        rw [h.1, ih true h.2]
    · rw [Bool.not_eq_true] at hsp
      simp only [wsChain, hsp, Bool.false_eq_true, if_false] at h
      simp only [collapseWs, hsp, Bool.false_eq_true, if_false]
      rw [ih false h]

theorem wsChain_false_of_true (l : List Char) (h : wsChain true l = true) :
    wsChain false l = true := by
  cases l with
  | nil => rfl
  | cons c rest =>
    by_cases hsp : isSp c = true
    · simp [wsChain, hsp] at h
    · rw [Bool.not_eq_true] at hsp
      simp only [wsChain, hsp, Bool.false_eq_true, if_false] at h ⊢
      exact h

theorem collapse_last :
    ∀ (l : List Char), l ≠ [] → lastNotSp l = true →
      ∀ b, collapseWs b l ≠ [] ∧ lastNotSp (collapseWs b l) = true := by
  intro l
  induction l with
  | nil => intro h; exact absurd rfl h
  | cons c rest ih =>
    intro _ hlast b
    cases rest with
    | nil =>
      have hc : isSp c = false := by
        unfold lastNotSp at hlast
        simpa using hlast
      have : collapseWs b [c] = [c] := by
        simp [collapseWs, hc]
      rw [this]
      exact ⟨by simp, hlast⟩
    | cons d rest2 =>
      have hlast2 : lastNotSp (d :: rest2) = true := by
        unfold lastNotSp at hlast ⊢
        rwa [List.getLast?_cons_cons] at hlast
      have hih := ih (by simp) hlast2
      by_cases hsp : isSp c = true
      · cases b with
        | true =>
          have hcoll : collapseWs true (c :: d :: rest2) = collapseWs true (d :: rest2) := by
            simp [collapseWs, hsp]
          rw [hcoll]
          exact hih true
        | false =>
          have hcoll : collapseWs false (c :: d :: rest2) =
              ' ' :: collapseWs true (d :: rest2) := by
            simp [collapseWs, hsp]
          rw [hcoll]
          obtain ⟨hne, hl⟩ := hih true
          cases hX : collapseWs true (d :: rest2) with
          | nil => exact absurd hX hne
          | cons x xs =>
            rw [hX] at hl
            refine ⟨by simp, ?_⟩
            unfold lastNotSp at hl ⊢
            rw [List.getLast?_cons_cons]
            exact hl
      · rw [Bool.not_eq_true] at hsp
        have hcoll : collapseWs b (c :: d :: rest2) =
            c :: collapseWs false (d :: rest2) := by
          simp [collapseWs, hsp]
        rw [hcoll]
        obtain ⟨hne, hl⟩ := hih false
        cases hX : collapseWs false (d :: rest2) with
        | nil => exact absurd hX hne
        | cons x xs =>
          rw [hX] at hl
          refine ⟨by simp, ?_⟩
          unfold lastNotSp at hl ⊢
          rw [List.getLast?_cons_cons]
          exact hl

theorem mem_collapse :
    ∀ (l : List Char) (b : Bool) (c : Char), c ∈ collapseWs b l →
      c = ' ' ∨ c ∈ l := by
  intro l
  induction l with
  | nil => intro b c h; cases h
  | cons x rest ih =>
    intro b c h
    by_cases hsp : isSp x = true
    · cases b with
      | true =>
        simp only [collapseWs, hsp, if_true] at h
        rcases ih true c h with h1 | h1
        · exact Or.inl h1
        · exact Or.inr (List.mem_cons_of_mem _ h1)
      | false =>
        simp only [collapseWs, hsp, if_true, Bool.false_eq_true, if_false] at h
        rcases List.mem_cons.mp h with h1 | h1
        · exact Or.inl h1
        · rcases ih true c h1 with h2 | h2
          · exact Or.inl h2
          · exact Or.inr (List.mem_cons_of_mem _ h2)
    · rw [Bool.not_eq_true] at hsp
      simp only [collapseWs, hsp, Bool.false_eq_true, if_false] at h
      rcases List.mem_cons.mp h with h1 | h1
      · exact Or.inr (h1 ▸ List.mem_cons_self _ _)
      · rcases ih false c h1 with h2 | h2
        · exact Or.inl h2
        · exact Or.inr (List.mem_cons_of_mem _ h2)

theorem map_pyLower_id :
    ∀ l : List Char, (∀ c ∈ l, pyLower c = c) → l.map pyLower = l := by
  intro l
  induction l with
  | nil => intro _; rfl
  | cons c rest ih =>
    intro h
    rw [List.map_cons, h c (List.mem_cons_self _ _),
      ih (fun x hx => h x (List.mem_cons_of_mem _ hx))]

theorem getLast?_map_py (l : List Char) :
    (l.map pyLower).getLast? = l.getLast?.map pyLower := by
  calc (l.map pyLower).getLast? = (l.map pyLower).reverse.head? :=
        (List.head?_reverse _).symm
  _ = (l.reverse.map pyLower).head? := by rw [List.map_reverse]
  _ = l.reverse.head?.map pyLower := List.head?_map _ _
  _ = l.getLast?.map pyLower := by rw [List.head?_reverse]

theorem rstrip_fix (l : List Char) (h : lastNotSp l = true) :
    rstripChars l = l := by
  unfold rstripChars
  have hdw : l.reverse.dropWhile isSp = l.reverse := by
    cases hrev : l.reverse with
    | nil => rfl
    | cons c t =>
      have hc : isSp c = false := by
        unfold lastNotSp at h
        rw [← List.head?_reverse, hrev] at h
        simpa using h
      rw [List.dropWhile_cons, hc]
      simp
  rw [hdw, List.reverse_reverse]

theorem normChars_canonical (l : List Char) :
    wsChain true (normChars l) = true ∧ lastNotSp (normChars l) = true ∧
      ∀ c ∈ normChars l, pyLower c = c := by
  have hSlast : lastNotSp (rstripChars (lstripChars l)) = true :=
    lastNotSp_rstrip _
  have hMlast : lastNotSp ((rstripChars (lstripChars l)).map pyLower) = true := by
    unfold lastNotSp at hSlast ⊢
    rw [getLast?_map_py]
    cases hg : (rstripChars (lstripChars l)).getLast? with
    | none => rfl
    | some c =>
      rw [hg] at hSlast
      show (!isSp (pyLower c)) = true
      rw [isSp_pyLower]
      exact hSlast
  have hMhead : ∀ x t, (rstripChars (lstripChars l)).map pyLower = x :: t →
      isSp x = false := by
    intro x t hM
    cases hS : rstripChars (lstripChars l) with
    | nil => rw [hS] at hM; cases hM
    | cons c t2 =>
      rw [hS, List.map_cons, List.cons.injEq] at hM
      have hls : lstripChars l = c :: (t2 ++ ((lstripChars l).reverse.takeWhile isSp).reverse) := by
        have := rstrip_append (lstripChars l)
        rw [hS] at this
        simpa using this
      have hc : isSp c = false := dropWhile_head_not l c _ hls
      rw [← hM.1, isSp_pyLower]
      exact hc
  refine ⟨?_, ?_, ?_⟩
  · show wsChain true (collapseWs false ((rstripChars (lstripChars l)).map pyLower)) = true
    cases hM : (rstripChars (lstripChars l)).map pyLower with
    | nil => rfl
    | cons x t =>
      have hx : isSp x = false := hMhead x t hM
      have hcoll : collapseWs false (x :: t) = x :: collapseWs false t := by
        simp [collapseWs, hx]
      rw [hcoll]
      have hws : wsChain true (x :: collapseWs false t) =
          wsChain false (collapseWs false t) := by
        simp [wsChain, hx]
      rw [hws]
      exact wsChain_collapse t false
  · show lastNotSp (collapseWs false ((rstripChars (lstripChars l)).map pyLower)) = true
    cases hM : (rstripChars (lstripChars l)).map pyLower with
    | nil => rfl
    | cons x t =>
      rw [hM] at hMlast
      exact (collapse_last (x :: t) (by simp) hMlast false).2
  · intro c hc
    rcases mem_collapse _ _ _ hc with h1 | h1
    · rw [h1]; decide
    · obtain ⟨x, _, hx⟩ := List.mem_map.mp h1
      rw [← hx]
      exact pyLower_idem x

theorem normChars_fix (l : List Char) (h1 : wsChain true l = true)
    (h2 : lastNotSp l = true) (h3 : ∀ c ∈ l, pyLower c = c) :
    normChars l = l := by
  have hls : lstripChars l = l := by
    cases l with
    | nil => rfl
    | cons c rest =>
      have hc : isSp c = false := by
        by_cases hsp : isSp c = true
        · simp [wsChain, hsp] at h1
        · rwa [Bool.not_eq_true] at hsp
      unfold lstripChars
      rw [List.dropWhile_cons, hc]
      simp
  have hrs : rstripChars l = l := rstrip_fix l h2
  unfold normChars
  rw [hls, hrs, map_pyLower_id l h3]
  exact collapse_fix l false (wsChain_false_of_true l h1)

/-- C9: `norm_text` always yields a canonical string (no edge
whitespace, all interior whitespace collapsed to single plain spaces,
all characters fixed by lower-casing), it is idempotent, and empty or
null input maps to the empty string without error. -/
theorem C9_norm_text_canonical_idempotent :
    (∀ s : String, isCanonicalText (norm_text s) = true)
    ∧ (∀ s : String, norm_text (norm_text s) = norm_text s)
    ∧ norm_text "" = ""
    ∧ norm_text_opt none = "" := by
  refine ⟨?_, ?_, rfl, rfl⟩
  · intro s
    obtain ⟨h1, h2, h3⟩ := normChars_canonical s.data
    unfold isCanonicalText
    show (wsChain true (normChars s.data) && lastNotSp (normChars s.data) &&
      (normChars s.data).all fun c => pyLower c == c) = true
    rw [h1, h2]
    simp only [Bool.true_and, List.all_eq_true, beq_iff_eq]
    exact h3
  · intro s
    apply String.ext
    show normChars (normChars s.data) = normChars s.data
    obtain ⟨h1, h2, h3⟩ := normChars_canonical s.data
    exact normChars_fix _ h1 h2 h3

/-! ## Claim C7: companies with no signal have no Score row -/

/-- The pipeline steps never touch the scores table and only ever append
to the signals table. -/
def storePreserves (st st2 : Store) : Prop :=
  st2.scores = st.scores ∧ ∀ s ∈ st.signals, s ∈ st2.signals

theorem storePreserves_refl (st : Store) : storePreserves st st :=
  ⟨rfl, fun _ hs => hs⟩

theorem storePreserves_trans {a b c : Store} (h1 : storePreserves a b)
    (h2 : storePreserves b c) : storePreserves a c :=
  ⟨h2.1.trans h1.1, fun s hs => h2.2 s (h1.2 s hs)⟩

theorem covered_of_preserves {st st2 : Store} (h : storePreserves st st2)
    (hcov : scoresCovered st) : scoresCovered st2 := by
  intro row hrow
  rw [h.1] at hrow
  obtain ⟨sig, hsig, hk⟩ := hcov row hrow
  exact ⟨sig, h.2 sig hsig, hk⟩

theorem preserves_processBormeItem (fetch : String → Option String)
    (rd : String) (st : Store) (it : BormeItem) :
    storePreserves st (processBormeItem fetch rd st it).1 := by
  unfold processBormeItem
  cases hu : it.url_pdf with
  | none => exact storePreserves_refl st
  | some u =>
    cases hf : fetch u with
    | none =>
      simp only [hf]
      exact storePreserves_refl st
    | some text =>
      simp only [hf]
      cases hp : (detect_signals text).pos <;>
        cases hg : (detect_signals text).gov <;>
          cases hn : (detect_signals text).neg <;>
            exact ⟨by simp [hp, hg, hn, insert_signal_scores,
                insert_event_fst_scores, upsert_company_scores],
              fun s hs => by simp [hp, hg, hn, insert_signal_signals,
                insert_event_fst_signals, upsert_company_signals,
                List.mem_append, hs]⟩

theorem preserves_processRegionalListing (source ccaa today : String)
    (st : Store) (li : Listing) :
    storePreserves st (processRegionalListing source ccaa today st li) :=
  ⟨by simp [processRegionalListing, insert_signal_scores,
      insert_event_fst_scores, upsert_company_scores],
   fun s hs => by simp [processRegionalListing, insert_signal_signals,
      insert_event_fst_signals, upsert_company_signals, List.mem_append, hs]⟩

theorem preserves_bormeLoop (fetch : String → Option String) (rd : String) :
    ∀ (items : List BormeItem) (st : Store),
      storePreserves st (bormeLoop fetch rd st items).1 := by
  intro items
  induction items with
  | nil => intro st; exact storePreserves_refl st
  | cons it rest ih =>
    intro st
    exact storePreserves_trans (preserves_processBormeItem fetch rd st it)
      (ih (processBormeItem fetch rd st it).1)

theorem preserves_regionalListingsLoop (fails : Listing → Bool)
    (source ccaa today : String) :
    ∀ (ls : List Listing) (st : Store),
      storePreserves st (regionalListingsLoop fails source ccaa today st ls).1 := by
  intro ls
  induction ls with
  | nil => intro st; exact storePreserves_refl st
  | cons li rest ih =>
    intro st
    by_cases hb : fails li = true
    · have h : regionalListingsLoop fails source ccaa today st (li :: rest) = (st, 0) := by
        show (if fails li = true then (st, 0) else _) = (st, 0)
        rw [if_pos hb]
      rw [h]
      exact storePreserves_refl st
    · rw [Bool.not_eq_true] at hb
      have h : regionalListingsLoop fails source ccaa today st (li :: rest) =
          (let st1 := processRegionalListing source ccaa today st li
           let r := regionalListingsLoop fails source ccaa today st1 rest
           (r.1, r.2 + 1)) := by
        show (if fails li = true then (st, 0) else _) = _
        rw [hb]
        simp
      rw [h]
      exact storePreserves_trans
        (preserves_processRegionalListing source ccaa today st li)
        (ih (processRegionalListing source ccaa today st li))

theorem preserves_regionalSourceLoop (scrape : String → Option (List Listing))
    (fails : Listing → Bool) (today : String) :
    ∀ (srcs : List RegSource) (st : Store),
      storePreserves st (regionalSourceLoop scrape fails today st srcs).1 := by
  intro srcs
  induction srcs with
  | nil => intro st; exact storePreserves_refl st
  | cons src rest ih =>
    intro st
    cases hs : scrape src.list_url with
    | none =>
      have h : regionalSourceLoop scrape fails today st (src :: rest) =
          (let r2 := regionalSourceLoop scrape fails today st rest
           (r2.1, 0 + r2.2)) := by
        show (let r := match scrape src.list_url with
                | none => (st, 0)
                | some listings =>
                  regionalListingsLoop fails src.source src.ccaa today st listings
              let r2 := regionalSourceLoop scrape fails today r.1 rest
              (r2.1, r.2 + r2.2)) = _
        rw [hs]
      rw [h]
      exact ih st
    | some listings =>
      have h : regionalSourceLoop scrape fails today st (src :: rest) =
          (let r := regionalListingsLoop fails src.source src.ccaa today st listings
           let r2 := regionalSourceLoop scrape fails today r.1 rest
           (r2.1, r.2 + r2.2)) := by
        show (let r := match scrape src.list_url with
                | none => (st, 0)
                | some listings =>
                  regionalListingsLoop fails src.source src.ccaa today st listings
              let r2 := regionalSourceLoop scrape fails today r.1 rest
              (r2.1, r.2 + r2.2)) = _
        rw [hs]
      rw [h]
      exact storePreserves_trans
        (preserves_regionalListingsLoop fails src.source src.ccaa today listings st)
        (ih _)

theorem covered_recompute (st : Store) (v : String)
    (h : scoresCovered st) : scoresCovered (recompute_scores st v) := by
  intro row hrow
  have hsig_eq : (recompute_scores st v).signals = st.signals := rfl
  rw [hsig_eq]
  have hrow2 : row ∈ mergeScores st.scores ((signalKeys st).map (mkScoreRow st v)) := hrow
  unfold mergeScores at hrow2
  rcases List.mem_append.mp hrow2 with h1 | h1
  · obtain ⟨r, hr, hfr⟩ := List.mem_map.mp h1
    have hkey : row.company_key = r.company_key := by
      rw [← hfr]
      cases hfind : ((signalKeys st).map (mkScoreRow st v)).find?
          (fun s => s.company_key == r.company_key) <;> rfl
    obtain ⟨sig, hsig, hk⟩ := h r hr
    exact ⟨sig, hsig, by rw [hkey, hk]⟩
  · have hsrc := List.mem_of_mem_filter h1
    obtain ⟨k, hkmem, hkr⟩ := List.mem_map.mp hsrc
    have hrk : row.company_key = k := by rw [← hkr]; rfl
    have hk2 : k ∈ st.signals.map (fun s => s.company_key) :=
      mem_dedupKeys_sub _ _ hkmem
    obtain ⟨sig, hsig, hk3⟩ := List.mem_map.mp hk2
    exact ⟨sig, hsig, by rw [hrk, hk3]⟩

/-- C7: in every store reachable through the program's entry points,
every Score row's company key owns at least one signal; a company with
zero signals never has a Score row, in particular after any run of the
Aggregator. -/
theorem C7_score_rows_only_with_signals (st : Store) (h : Reach st) :
    scoresCovered st := by
  induction h with
  | empty => intro row hrow; cases hrow
  | borme fetch rd items cap st0 _ ih =>
    exact covered_recompute _ _
      (covered_of_preserves
        (preserves_bormeLoop fetch rd ((bormeFilter items).take cap) st0) ih)
  | regional scrape fails today st0 _ ih =>
    exact covered_recompute _ _
      (covered_of_preserves
        (preserves_regionalSourceLoop scrape fails today REGIONAL_SOURCES st0) ih)
  | rescore v st0 _ ih => exact covered_recompute st0 v ih

theorem C7_witness :
    Reach (etl_regional_run
      (fun u => if u == "https://relevoaragon.com/" then
        some [⟨"Bar Pepe en traspaso", "http://a"⟩] else none)
      (fun _ => false) "2026-10-12" Store.empty).1
    ∧ scoresCovered (etl_regional_run
      (fun u => if u == "https://relevoaragon.com/" then
        some [⟨"Bar Pepe en traspaso", "http://a"⟩] else none)
      (fun _ => false) "2026-10-12" Store.empty).1 :=
  ⟨Reach.regional _ _ _ _ Reach.empty,
   C7_score_rows_only_with_signals _ (Reach.regional _ _ _ _ Reach.empty)⟩

end Arraigo
